import Mathlib

/-!
Shallow embedding of the Meld Studio companion module (src/main.js).

JavaScript objects used as string-keyed maps (`this.sessionItems`) are
modelled as association lists in insertion order, matching the iteration
order of `Object.entries` for non-integer string keys; object keys are
unique, which appears as a `Nodup` hypothesis where it matters.
`String.prototype.localeCompare` is locale-dependent, so the embedding is
parametric in a comparison function `lc : String → String → Int`; a
concrete model `jsLocaleCompare` instantiates it for evaluation.
`Array.prototype.sort` is modelled by a stable insertion sort, which agrees
with the ECMAScript stable-sort requirement for consistent comparators.
JS truthiness on the `name` field (`obj.name ? _ : _`, `obj.name || id`)
is modelled by comparison with the empty string; a missing `name` is the
empty string, and a missing `index` is `Option.none` (`obj.index ?? 9999`).
`id.slice(0, 8)` is modelled by `String.take` (scene ids are ASCII).
-/

/-- One entry of `this.sessionItems` (a session item pushed by Meld). -/
structure SItem where
  type : String
  name : String
  index : Option Int
  current : Bool
deriving DecidableEq, Repr

/-- The `sessionItems` map: JS object modelled as an insertion-ordered
association list. -/
abbrev Items := List (String × SItem)

/-- A dropdown choice `{ id, label }` as produced by `_getSceneChoices`. -/
structure Choice where
  id : String
  label : String
deriving DecidableEq, Repr

/-- Intermediate record of `_getSceneChoices` before the final projection:
`{ id, label, index: obj.index ?? 9999 }`. -/
structure SceneRec where
  id : String
  label : String
  index : Int
deriving DecidableEq, Repr

/-- Intermediate scene record of `_initPresets`:
`{ id, name: obj.name || id, index: obj.index ?? 9999 }`. -/
structure PScene where
  id : String
  name : String
  index : Int
deriving DecidableEq, Repr

/-- Stable insertion of one element behind every earlier element that the
JS comparator does not order after it; models the placement performed by a
stable `Array.prototype.sort`. -/
def insertStable (c : α → α → Int) (x : α) : List α → List α
  | [] => [x]
  | y :: ys => if c y x ≤ 0 then y :: insertStable c x ys else x :: y :: ys

/-- Stable sort by a JS-style comparator (negative = keep first argument
earlier); models `Array.prototype.sort(cmp)`. -/
def stableSort (c : α → α → Int) (l : List α) : List α :=
  l.foldl (fun acc x => insertStable c x acc) []

/-- ASCII-lowercased code point of a character. -/
def charLowerNat (c : Char) : Nat :=
  if 65 ≤ c.toNat ∧ c.toNat ≤ 90 then c.toNat + 32 else c.toNat

/-- Sign of the comparison of two naturals, as a JS-style comparator
result. -/
def cmpNat (a b : Nat) : Int :=
  if a < b then -1 else if b < a then 1 else 0

/-- Lexicographic comparison of character lists under a key function. -/
def cmpCharList (f : Char → Nat) : List Char → List Char → Int
  | [], [] => 0
  | [], _ :: _ => -1
  | _ :: _, [] => 1
  | a :: as, b :: bs => if f a = f b then cmpCharList f as bs else cmpNat (f a) (f b)

/-- Lexicographic comparison of key lists (the key-level view of
`cmpCharList`, used to reason about it). -/
def cmpNatList : List Nat → List Nat → Int
  | [], [] => 0
  | [], _ :: _ => -1
  | _ :: _, [] => 1
  | a :: as, b :: bs => if a = b then cmpNatList as bs else cmpNat a b

/-- Two elements tie under a JS comparator when neither is ordered strictly
after the other; the tie class of a reference element is what a stable sort
must keep in discovery order. -/
def tiedWith (c : α → α → Int) (x a : α) : Bool :=
  decide (c a x ≤ 0) && decide (c x a ≤ 0)

/-- Concrete model of `String.prototype.localeCompare`: case-insensitive
primary comparison with a code-point tiebreak. Used only to instantiate the
parametric comparison for concrete evaluation; theorems quantify over the
comparison wherever the source behaviour is locale-dependent. -/
def jsLocaleCompare (a b : String) : Int :=
  if cmpCharList charLowerNat a.data b.data = 0 then cmpCharList Char.toNat a.data b.data
  else cmpCharList charLowerNat a.data b.data

/-- Comparator of `_getSceneChoices`:
`(a, b) => (a.index === b.index ? a.label.localeCompare(b.label) : a.index - b.index)`. -/
def cmpByIndexLabel (lc : String → String → Int) (a b : SceneRec) : Int :=
  if a.index = b.index then lc a.label b.label else a.index - b.index

/-- Comparator of `_initPresets`:
`(a, b) => (a.index === b.index ? a.name.localeCompare(b.name) : a.index - b.index)`. -/
def cmpByIndexName (lc : String → String → Int) (a b : PScene) : Int :=
  if a.index = b.index then lc a.name b.name else a.index - b.index

/-- Scene records collected by `_getSceneChoices` before sorting: for each
entry of type `scene`, label is `` `${obj.name} (${id.slice(0, 8)})` `` when
the name is truthy, else the raw id. -/
def sceneRecs (items : Items) : List SceneRec :=
  items.filterMap fun p =>
    if p.2.type = "scene" then
      some ⟨p.1,
            if p.2.name = "" then p.1 else p.2.name ++ " (" ++ p.1.take 8 ++ ")",
            p.2.index.getD 9999⟩
    else none

/-- The sorted scene records of `_getSceneChoices` (before dropping the
index field). -/
def getSceneChoicesSorted (lc : String → String → Int) (items : Items) : List SceneRec :=
  stableSort (cmpByIndexLabel lc) (sceneRecs items)

/-- `_getSceneChoices`: sorted scene records projected to `{ id, label }`. -/
def getSceneChoices (lc : String → String → Int) (items : Items) : List Choice :=
  (getSceneChoicesSorted lc items).map fun r => ⟨r.id, r.label⟩

/-- `_getCurrentSceneId`: the first entry whose value is a scene with a
truthy `current` flag, else the empty string. -/
def getCurrentSceneId (items : Items) : String :=
  match items.find? (fun p => p.2.type == "scene" && p.2.current) with
  | some p => p.1
  | none => ""

/-- `_getSceneNameById`: object lookup by key; scenes yield
`obj.name || id`, anything else (including a missing key) yields the id. -/
def getSceneNameById (items : Items) (id : String) : String :=
  match items.find? (fun p => p.1 == id) with
  | some p => if p.2.type = "scene" then (if p.2.name = "" then id else p.2.name) else id
  | none => id

/-- `_getCurrentSceneName`. -/
def getCurrentSceneName (items : Items) : String :=
  getSceneNameById items (getCurrentSceneId items)

/-- The keys of the scene-typed entries of the session-items map, in
insertion order. -/
def sceneKeys (items : Items) : List String :=
  (items.filter fun p => p.2.type == "scene").map Prod.fst

/-- Scene records collected by `_initPresets` before sorting:
`{ id, name: obj.name || id, index: obj.index ?? 9999 }`. -/
def presetSceneRecs (items : Items) : List PScene :=
  items.filterMap fun p =>
    if p.2.type = "scene" then
      some ⟨p.1, if p.2.name = "" then p.1 else p.2.name, p.2.index.getD 9999⟩
    else none

/-- The sorted scene list of `_initPresets`. -/
def presetScenes (lc : String → String → Int) (items : Items) : List PScene :=
  stableSort (cmpByIndexName lc) (presetSceneRecs items)

/-- A feedback reference inside a preset: feedback id plus the optional
scene id passed in its options. -/
structure FeedbackRef where
  feedbackId : String
  sceneId : Option String
deriving DecidableEq, Repr

/-- A preset descriptor: category, name, button text, triggered action id,
the optional scene id in the action options, and the feedback references. -/
structure Preset where
  category : String
  name : String
  text : String
  actionId : String
  actionSceneId : Option String
  feedbacks : List FeedbackRef
deriving DecidableEq, Repr

/-- The per-scene preset pushed by `_initPresets` for one sorted scene. -/
def scenePreset (sc : PScene) : Preset :=
  ⟨"Meld Studio / Scenes", "Scene: " ++ sc.name, sc.name, "showScene", some sc.id,
   [⟨"sceneIsLive", some sc.id⟩, ⟨"labelSceneName", some sc.id⟩]⟩

/-- The first utility preset pushed by `_initPresets`. -/
def toggleRecordingPreset : Preset :=
  ⟨"Meld Studio / Utility", "Toggle Recording", "REC", "toggleRecord", none,
   [⟨"recordingOn", none⟩]⟩

/-- The second utility preset pushed by `_initPresets`. -/
def toggleStreamingPreset : Preset :=
  ⟨"Meld Studio / Utility", "Toggle Streaming", "STREAM", "toggleStream", none,
   [⟨"streamingOn", none⟩]⟩

/-- `_initPresets`: one preset per sorted scene, then the two utility
presets. -/
def initPresets (lc : String → String → Int) (items : Items) : List Preset :=
  (presetScenes lc items).map scenePreset ++ [toggleRecordingPreset, toggleStreamingPreset]

/-- An action descriptor: its id, display name, and the scene dropdown
choices when the action has a scene dropdown. -/
structure ActionDef where
  actionId : String
  name : String
  sceneChoices : Option (List Choice)
deriving DecidableEq, Repr

/-- `_initActions`: the fixed set of action definitions registered by
`setActionDefinitions`; the four scene dropdowns all use
`_getSceneChoices`. -/
def initActions (lc : String → String → Int) (items : Items) : List ActionDef :=
  let sc := getSceneChoices lc items
  [⟨"toggleRecord", "Toggle Record", none⟩,
   ⟨"toggleStream", "Toggle Stream", none⟩,
   ⟨"showScene", "Show Scene", some sc⟩,
   ⟨"setStagedScene", "Set Staged Scene", some sc⟩,
   ⟨"showStagedScene", "Show Staged Scene", none⟩,
   ⟨"toggleMute", "Toggle Mute (Track ID)", none⟩,
   ⟨"toggleMonitor", "Toggle Monitor (Track ID)", none⟩,
   ⟨"toggleLayer", "Toggle Layer (Scene ID + Layer ID)", some sc⟩,
   ⟨"toggleEffect", "Toggle Effect (Scene + Layer + Effect ID)", some sc⟩,
   ⟨"setGain", "Set Gain (Track ID, 0.0–1.0)", none⟩,
   ⟨"sendCommand", "Send Command (string)", none⟩]

/-- The scene dropdown choices carried by the feedback definitions
(`labelSceneName` and `sceneIsLive` both use `_getSceneChoices`). -/
structure FeedbackDefs where
  labelSceneNameChoices : List Choice
  sceneIsLiveChoices : List Choice
deriving DecidableEq, Repr

/-- `_initFeedbacks` as far as its scene-dependent content goes. -/
def initFeedbacks (lc : String → String → Int) (items : Items) : FeedbackDefs :=
  ⟨getSceneChoices lc items, getSceneChoices lc items⟩

/-- The three module variables; every write in the source
(`_initVariables`, `_updateVariables`) assigns all three at once. -/
structure Vars where
  current_scene_name : String
  is_streaming : String
  is_recording : String
deriving DecidableEq, Repr

/-- The initial values set by `_initVariables`. -/
def initVariablesValues : Vars :=
  ⟨"", "OFF", "OFF"⟩

/-- The values written by `_updateVariables`:
`current_scene_name: this._getCurrentSceneName() || ''` and
ON/OFF strings from the boolean flags. -/
def updateVariablesValues (items : Items) (isStreaming isRecording : Bool) : Vars :=
  ⟨(if getCurrentSceneName items = "" then "" else getCurrentSceneName items),
   if isStreaming then "ON" else "OFF",
   if isRecording then "ON" else "OFF"⟩

/-- Connection status values reported through `updateStatus`. -/
inductive ConnStatus where
  | Connecting
  | Ok
  | Disconnected
  | Error
deriving DecidableEq, Repr

/-- The remote `meld` object as seen through the channel proxy: its known
method set, the cached boolean properties, and `session.items`. -/
structure MeldObj where
  methods : List String
  isRecording : Bool
  isStreaming : Bool
  sessionItems : Items
deriving DecidableEq, Repr

/-- Observable side effects of the handlers: status updates, log lines,
remote method invocations (each invocation is what sends a frame),
reconnect-timer scheduling, raw frame sends, and queueing of a command for
replay. The source never produces the last three from the handlers modelled
here; the constructors exist so their absence is expressible. -/
inductive Effect where
  | updateStatus (s : ConnStatus) (msg : Option String)
  | log (level msg : String)
  | invoke (name : String) (args : List String)
  | scheduleReconnect (delayMs : Int)
  | sendFrame (data : String)
  | enqueue (name : String)
deriving DecidableEq, Repr

/-- The module instance state: the mirror fields (`sessionItems`,
`_isStreaming`, `_isRecording`), the proxy handle (`this.meld`), the
transport handle, the reported status, the variable values, and the
registered descriptor sets. -/
structure Inst where
  sessionItems : Items
  isStreaming : Bool
  isRecording : Bool
  meld : Option MeldObj
  transportPresent : Bool
  status : ConnStatus
  vars : Vars
  actionDefs : List ActionDef
  feedbackDefs : FeedbackDefs
  presetDefs : List Preset
deriving DecidableEq, Repr

/-- Descriptor regeneration as performed after a mirror change
(`_updateVariables` plus `_refreshActionChoices` plus `_initPresets`):
a pure function of the mirror fields that rewrites the derived fields. -/
def regenerate (lc : String → String → Int) (i : Inst) : Inst :=
  { i with
    vars := updateVariablesValues i.sessionItems i.isStreaming i.isRecording,
    actionDefs := initActions lc i.sessionItems,
    feedbackDefs := initFeedbacks lc i.sessionItems,
    presetDefs := initPresets lc i.sessionItems }

/-- The `ws.on('close')` handler: status `Disconnected`, proxy and
transport cleared, one warning logged. -/
def onCloseHandler (i : Inst) : Inst × List Effect :=
  ({ i with status := .Disconnected, meld := none, transportPresent := false },
   [.updateStatus .Disconnected none, .log "warn" "WebSocket closed"])

/-- The `ws.on('error')` handler: status `Error` with the message, one
error log line. -/
def onErrorHandler (i : Inst) (errMsg : String) : Inst × List Effect :=
  ({ i with status := .Error },
   [.updateStatus .Error (some errMsg), .log "error" ("WebSocket error: " ++ errMsg)])

/-- `_mCall`: drop with a warning when the proxy is absent; otherwise
invoke the property named exactly `name` when it is a function on the
proxy, else log an unknown-function error. -/
def mCall (i : Inst) (name : String) (args : List String) : Inst × List Effect :=
  match i.meld with
  | none => (i, [.log "warn" "Meld not ready"])
  | some m =>
    if name ∈ m.methods then (i, [.invoke name args])
    else (i, [.log "error" ("Unknown Meld function: " ++ name)])

/-- The `isRecordingChanged` signal handler:
`this._isRecording = !!this.meld.isRecording` then `_updateVariables()`.
Reading `this.meld` while it is null would throw, modelled as `none`. -/
def isRecordingChangedHandler (i : Inst) : Option Inst :=
  match i.meld with
  | none => none
  | some m =>
    some { i with
           isRecording := m.isRecording,
           vars := updateVariablesValues i.sessionItems i.isStreaming m.isRecording }

/-- The `sessionChanged` signal handler: replace `sessionItems` from the
proxy (the try/catch makes a failed read yield the empty map), then
regenerate variables, actions, feedbacks and presets. -/
def sessionChangedHandler (lc : String → String → Int) (i : Inst) : Inst :=
  let items := match i.meld with | some m => m.sessionItems | none => []
  regenerate lc { i with sessionItems := items }

/-- The `recordingOn` feedback callback: `this._isRecording === true`. -/
def recordingOn (i : Inst) : Bool :=
  i.isRecording

/-- The `sceneIsLive` feedback callback:
`targetId && currentId && targetId === currentId` read as a boolean. -/
def sceneIsLiveCallback (items : Items) (targetId : String) : Bool :=
  targetId != "" && getCurrentSceneId items != "" && targetId == getCurrentSceneId items

/-- Number of reconnect-scheduling effects in an effect list. -/
def reconnectCount (effs : List Effect) : Nat :=
  effs.countP fun e => match e with | .scheduleReconnect _ => true | _ => false

/-- Number of frame-sending effects (invocations, raw sends, queueing) in
an effect list. -/
def sendLikeCount (effs : List Effect) : Nat :=
  effs.countP fun e =>
    match e with
    | .invoke _ _ => true
    | .sendFrame _ => true
    | .enqueue _ => true
    | _ => false

/-- Number of log effects in an effect list. -/
def logCount (effs : List Effect) : Nat :=
  effs.countP fun e => match e with | .log _ _ => true | _ => false

/-- First alias present on the proxy, as the spec describes alias-fallback
dispatch (used only to state what the source does not do). -/
def firstPresent (aliases methods : List String) : Option String :=
  aliases.find? fun a => methods.contains a

/-- A quiescent instance used for concrete evaluations. -/
def inst0 : Inst :=
  ⟨[], false, false, none, false, .Connecting, initVariablesValues, [], ⟨[], []⟩, []⟩

/-- A proxy object exposing the toggle and scene methods. -/
def meld1 : MeldObj :=
  ⟨["toggleRecord", "toggleStream", "showScene"], false, false, []⟩

/-- A connected instance whose proxy is `meld1`. -/
def inst1 : Inst :=
  { inst0 with
    meld := some meld1,
    transportPresent := true,
    status := .Ok }

/-- A proxy object whose session items hold scenes none of which is marked
current. -/
def meld9 : MeldObj :=
  ⟨[], false, false,
   [("A", ⟨"scene", "Intro (abc12345)", some 0, false⟩),
    ("B", ⟨"scene", "Outro", some 1, false⟩)]⟩

/-- A connected instance whose proxy is `meld9`. -/
def inst9 : Inst :=
  { inst0 with meld := some meld9 }

/-- The session items of the spec scenario: scene `A` labelled
`Intro (abc12345)` at order 0 and scene `B` labelled `Outro` at order 1. -/
def cItemsC1 : Items :=
  [("A", ⟨"scene", "Intro (abc12345)", some 0, false⟩),
   ("B", ⟨"scene", "Outro", some 1, false⟩)]

/-- Two scenes with the same display name and order but distinct ids, in
discovery order `b` before `a`. -/
def cItemsC5 : Items :=
  [("b", ⟨"scene", "X", some 0, false⟩),
   ("a", ⟨"scene", "X", some 0, false⟩)]

/-- The ordering the claim asserts for scene lists: order ascending, then
display name case-insensitive ascending, then id as final tiebreak. -/
def lexOrderNameId (a b : PScene) : Prop :=
  a.index < b.index ∨
    (a.index = b.index ∧
      (cmpCharList charLowerNat a.name.data b.name.data < 0 ∨
        (cmpCharList charLowerNat a.name.data b.name.data = 0 ∧
          cmpCharList Char.toNat a.id.data b.id.data < 0)))

instance (a b : PScene) : Decidable (lexOrderNameId a b) :=
  inferInstanceAs (Decidable
    (a.index < b.index ∨
      (a.index = b.index ∧
        (cmpCharList charLowerNat a.name.data b.name.data < 0 ∨
          (cmpCharList charLowerNat a.name.data b.name.data = 0 ∧
            cmpCharList Char.toNat a.id.data b.id.data < 0)))))

theorem insertStable_perm (c : α → α → Int) (x : α) (l : List α) :
    (insertStable c x l).Perm (x :: l) := by
  induction l with
  | nil => simp [insertStable]
  | cons y ys ih =>
    simp only [insertStable]
    by_cases h : c y x ≤ 0
    · rw [if_pos h]
      exact (ih.cons y).trans (List.Perm.swap x y ys)
    · rw [if_neg h]

theorem stableSort_aux_perm (c : α → α → Int) (l acc : List α) :
    (l.foldl (fun a x => insertStable c x a) acc).Perm (acc ++ l) := by
  induction l generalizing acc with
  | nil => simp
  | cons x xs ih =>
    simp only [List.foldl_cons]
    refine (ih (insertStable c x acc)).trans ?_
    refine (((insertStable_perm c x acc).append_right xs).trans ?_)
    exact List.perm_middle.symm

theorem stableSort_perm (c : α → α → Int) (l : List α) :
    (stableSort c l).Perm l := by
  simpa using stableSort_aux_perm c l []

theorem insertStable_head (c : α → α → Int) (x : α) (l : List α) :
    (insertStable c x l).head? = some x ∨ (insertStable c x l).head? = l.head? := by
  cases l with
  | nil => left; rfl
  | cons y ys =>
    simp only [insertStable]
    by_cases h : c y x ≤ 0
    · right; rw [if_pos h]; rfl
    · left; rw [if_neg h]; rfl

theorem insertStable_chain (key : α → Int) (c : α → α → Int)
    (H1 : ∀ a b, c a b ≤ 0 → key a ≤ key b) (H2 : ∀ a b, ¬ c a b ≤ 0 → key b ≤ key a)
    (x : α) (l : List α) (h : l.Chain' fun a b => key a ≤ key b) :
    (insertStable c x l).Chain' fun a b => key a ≤ key b := by
  induction l with
  | nil => simp [insertStable]
  | cons y ys ih =>
    rw [List.chain'_cons'] at h
    simp only [insertStable]
    by_cases hc : c y x ≤ 0
    · rw [if_pos hc, List.chain'_cons']
      refine ⟨?_, ih h.2⟩
      intro z hz
      rcases insertStable_head c x ys with hh | hh
      · rw [hh, Option.mem_some_iff] at hz
        exact hz ▸ H1 y x hc
      · rw [hh] at hz
        exact h.1 z hz
    · rw [if_neg hc]
      exact List.Chain'.cons (H2 y x hc) (List.chain'_cons'.mpr h)

theorem stableSort_aux_chain (key : α → Int) (c : α → α → Int)
    (H1 : ∀ a b, c a b ≤ 0 → key a ≤ key b) (H2 : ∀ a b, ¬ c a b ≤ 0 → key b ≤ key a)
    (l acc : List α) (h : acc.Chain' fun a b => key a ≤ key b) :
    (l.foldl (fun a x => insertStable c x a) acc).Chain' fun a b => key a ≤ key b := by
  induction l generalizing acc with
  | nil => simpa using h
  | cons x xs ih =>
    simp only [List.foldl_cons]
    exact ih _ (insertStable_chain key c H1 H2 x acc h)

theorem stableSort_chain (key : α → Int) (c : α → α → Int)
    (H1 : ∀ a b, c a b ≤ 0 → key a ≤ key b) (H2 : ∀ a b, ¬ c a b ≤ 0 → key b ≤ key a)
    (l : List α) :
    (stableSort c l).Chain' fun a b => key a ≤ key b :=
  stableSort_aux_chain key c H1 H2 l [] (by simp)

theorem insertStable_append (c : α → α → Int) (x : α) (l : List α)
    (h : ∀ y ∈ l, c y x ≤ 0) :
    insertStable c x l = l ++ [x] := by
  induction l with
  | nil => rfl
  | cons y ys ih =>
    simp only [insertStable, if_pos (h y (by simp))]
    rw [ih fun z hz => h z (by simp [hz])]
    rfl

theorem stableSort_aux_id (c : α → α → Int) (l : List α) :
    ∀ acc : List α, (∀ x ∈ l, ∀ y ∈ acc, c y x ≤ 0) → (∀ x ∈ l, ∀ y ∈ l, c y x ≤ 0) →
      l.foldl (fun a x => insertStable c x a) acc = acc ++ l := by
  induction l with
  | nil => intro acc _ _; simp
  | cons x xs ih =>
    intro acc h1 h2
    simp only [List.foldl_cons]
    rw [insertStable_append c x acc (h1 x (by simp))]
    rw [ih (acc ++ [x]) ?_ ?_]
    · simp
    · intro z hz y hy
      rcases List.mem_append.mp hy with hy | hy
      · exact h1 z (by simp [hz]) y hy
      · have : y = x := by simpa using hy
        exact this ▸ h2 z (by simp [hz]) x (by simp)
    · intro z hz y hy
      exact h2 z (by simp [hz]) y (by simp [hy])

theorem stableSort_id (c : α → α → Int) (l : List α)
    (h : ∀ a ∈ l, ∀ b ∈ l, c a b = 0) :
    stableSort c l = l := by
  have := stableSort_aux_id c l [] (by intro x _ y hy; cases hy)
    (fun a ha b hb => le_of_eq (h b hb a ha))
  simpa [stableSort] using this

theorem cmpByIndexLabel_le (lc : String → String → Int) (a b : SceneRec)
    (h : cmpByIndexLabel lc a b ≤ 0) : a.index ≤ b.index := by
  unfold cmpByIndexLabel at h
  by_cases h' : a.index = b.index
  · exact le_of_eq h'
  · rw [if_neg h'] at h
    omega

theorem cmpByIndexLabel_gt (lc : String → String → Int) (a b : SceneRec)
    (h : ¬ cmpByIndexLabel lc a b ≤ 0) : b.index ≤ a.index := by
  unfold cmpByIndexLabel at h
  by_cases h' : a.index = b.index
  · exact le_of_eq h'.symm
  · rw [if_neg h'] at h
    have := lt_of_not_le h
    omega

theorem cmpByIndexName_le (lc : String → String → Int) (a b : PScene)
    (h : cmpByIndexName lc a b ≤ 0) : a.index ≤ b.index := by
  unfold cmpByIndexName at h
  by_cases h' : a.index = b.index
  · exact le_of_eq h'
  · rw [if_neg h'] at h
    omega

theorem cmpByIndexName_gt (lc : String → String → Int) (a b : PScene)
    (h : ¬ cmpByIndexName lc a b ≤ 0) : b.index ≤ a.index := by
  unfold cmpByIndexName at h
  by_cases h' : a.index = b.index
  · exact le_of_eq h'.symm
  · rw [if_neg h'] at h
    have := lt_of_not_le h
    omega

theorem cmpCharList_eq (f : Char → Nat) (x : List Char) :
    ∀ y : List Char, cmpCharList f x y = cmpNatList (x.map f) (y.map f) := by
  induction x with
  | nil => intro y; cases y <;> simp [cmpCharList, cmpNatList]
  | cons a as ih =>
    intro y
    cases y with
    | nil => simp [cmpCharList, cmpNatList]
    | cons b bs => simp [cmpCharList, cmpNatList, ih bs]

theorem cmpNat_neg (a b : Nat) : cmpNat b a = -cmpNat a b := by
  unfold cmpNat
  split_ifs <;> omega

theorem cmpNatList_neg (u : List Nat) : ∀ v : List Nat, cmpNatList v u = -cmpNatList u v := by
  induction u with
  | nil => intro v; cases v <;> simp [cmpNatList]
  | cons a as ih =>
    intro v
    cases v with
    | nil => simp [cmpNatList]
    | cons b bs =>
      simp only [cmpNatList]
      by_cases h : a = b
      · simp [h, ih bs]
      · rw [if_neg h, if_neg (fun hh => h hh.symm)]
        exact cmpNat_neg a b

theorem cmpNatList_eq_zero (u : List Nat) : ∀ v : List Nat, cmpNatList u v = 0 ↔ u = v := by
  induction u with
  | nil => intro v; cases v <;> simp [cmpNatList]
  | cons a as ih =>
    intro v
    cases v with
    | nil => simp [cmpNatList]
    | cons b bs =>
      simp only [cmpNatList]
      by_cases h : a = b
      · simp [h, ih bs]
      · rw [if_neg h]
        unfold cmpNat
        split_ifs <;> simp [h] <;> omega


theorem cmpNatList_trans_le (u : List Nat) : ∀ v w : List Nat,
    cmpNatList u v ≤ 0 → cmpNatList v w ≤ 0 → cmpNatList u w ≤ 0 := by
  induction u with
  | nil => intro v w _ _; cases w <;> simp [cmpNatList]
  | cons a as ih =>
    intro v w h1 h2
    cases v with
    | nil => simp [cmpNatList] at h1
    | cons b bs =>
      cases w with
      | nil => simp [cmpNatList] at h2
      | cons c1 cs =>
        simp only [cmpNatList] at h1 h2 ⊢
        by_cases hab : a = b
        · subst hab
          rw [if_pos rfl] at h1
          by_cases hbc : a = c1
          · rw [if_pos hbc] at h2
            rw [if_pos hbc]
            exact ih bs cs h1 h2
          · rw [if_neg hbc] at h2
            rw [if_neg hbc]
            exact h2
        · rw [if_neg hab] at h1
          have hab' : a ≤ b := by
            unfold cmpNat at h1
            split_ifs at h1 <;> omega
          by_cases hbc : b = c1
          · subst hbc
            rw [if_neg hab]
            exact h1
          · rw [if_neg hbc] at h2
            have hbc' : b ≤ c1 := by
              unfold cmpNat at h2
              split_ifs at h2 <;> omega
            have hac : ¬ a = c1 := by omega
            rw [if_neg hac]
            unfold cmpNat
            split_ifs <;> omega

theorem jsLocaleCompare_neg (x y : String) :
    jsLocaleCompare y x = -jsLocaleCompare x y := by
  unfold jsLocaleCompare
  rw [cmpCharList_eq, cmpCharList_eq, cmpCharList_eq, cmpCharList_eq,
      cmpNatList_neg (x.data.map charLowerNat) (y.data.map charLowerNat),
      cmpNatList_neg (x.data.map Char.toNat) (y.data.map Char.toNat)]
  by_cases h : cmpNatList (x.data.map charLowerNat) (y.data.map charLowerNat) = 0
  · simp [h]
  · rw [if_neg h, if_neg (by omega)]

theorem jsLocaleCompare_total (x y : String) (h : ¬ jsLocaleCompare x y ≤ 0) :
    jsLocaleCompare y x ≤ 0 := by
  rw [jsLocaleCompare_neg]
  omega

theorem jsLocaleCompare_trans (x y z : String)
    (h1 : jsLocaleCompare x y ≤ 0) (h2 : jsLocaleCompare y z ≤ 0) :
    jsLocaleCompare x z ≤ 0 := by
  unfold jsLocaleCompare at h1 h2 ⊢
  rw [cmpCharList_eq, cmpCharList_eq] at h1 h2 ⊢
  by_cases hxy : cmpNatList (x.data.map charLowerNat) (y.data.map charLowerNat) = 0 <;>
    by_cases hyz : cmpNatList (y.data.map charLowerNat) (z.data.map charLowerNat) = 0
  · have e1 := (cmpNatList_eq_zero _ _).mp hxy
    have e2 := (cmpNatList_eq_zero _ _).mp hyz
    rw [if_pos hxy] at h1
    rw [if_pos hyz] at h2
    rw [if_pos ((cmpNatList_eq_zero _ _).mpr (e1.trans e2))]
    exact cmpNatList_trans_le _ _ _ h1 h2
  · have e1 := (cmpNatList_eq_zero _ _).mp hxy
    rw [e1]
    rw [if_neg hyz] at h2 ⊢
    exact h2
  · have e2 := (cmpNatList_eq_zero _ _).mp hyz
    rw [← e2]
    rw [if_neg hxy] at h1 ⊢
    exact h1
  · rw [if_neg hxy] at h1
    rw [if_neg hyz] at h2
    have hle := cmpNatList_trans_le _ _ _ h1 h2
    have hxz : ¬ cmpNatList (x.data.map charLowerNat) (z.data.map charLowerNat) = 0 := by
      intro hc
      have e := (cmpNatList_eq_zero _ _).mp hc
      rw [e] at h1
      rw [cmpNatList_neg] at h1
      omega
    rw [if_neg hxz]
    exact hle

theorem cmpByIndexLabel_total (lc : String → String → Int)
    (hlc : ∀ x y, ¬ lc x y ≤ 0 → lc y x ≤ 0) (a b : SceneRec)
    (h : ¬ cmpByIndexLabel lc a b ≤ 0) : cmpByIndexLabel lc b a ≤ 0 := by
  unfold cmpByIndexLabel at h ⊢
  by_cases he : a.index = b.index
  · rw [if_pos he] at h
    rw [if_pos he.symm]
    exact hlc _ _ h
  · rw [if_neg he] at h
    rw [if_neg (fun hh => he hh.symm)]
    omega

theorem cmpByIndexLabel_trans (lc : String → String → Int)
    (hlc : ∀ x y z, lc x y ≤ 0 → lc y z ≤ 0 → lc x z ≤ 0) (a b d : SceneRec)
    (h1 : cmpByIndexLabel lc a b ≤ 0) (h2 : cmpByIndexLabel lc b d ≤ 0) :
    cmpByIndexLabel lc a d ≤ 0 := by
  unfold cmpByIndexLabel at h1 h2 ⊢
  by_cases hab : a.index = b.index <;> by_cases hbd : b.index = d.index
  · rw [if_pos hab] at h1
    rw [if_pos hbd] at h2
    rw [if_pos (hab.trans hbd)]
    exact hlc _ _ _ h1 h2
  · rw [if_neg hbd] at h2
    have had : ¬ a.index = d.index := by omega
    rw [if_neg had]
    omega
  · rw [if_neg hab] at h1
    have had : ¬ a.index = d.index := by omega
    rw [if_neg had]
    omega
  · rw [if_neg hab] at h1
    rw [if_neg hbd] at h2
    have had : ¬ a.index = d.index := by omega
    rw [if_neg had]
    omega

theorem cmpByIndexName_total (lc : String → String → Int)
    (hlc : ∀ x y, ¬ lc x y ≤ 0 → lc y x ≤ 0) (a b : PScene)
    (h : ¬ cmpByIndexName lc a b ≤ 0) : cmpByIndexName lc b a ≤ 0 := by
  unfold cmpByIndexName at h ⊢
  by_cases he : a.index = b.index
  · rw [if_pos he] at h
    rw [if_pos he.symm]
    exact hlc _ _ h
  · rw [if_neg he] at h
    rw [if_neg (fun hh => he hh.symm)]
    omega

theorem cmpByIndexName_trans (lc : String → String → Int)
    (hlc : ∀ x y z, lc x y ≤ 0 → lc y z ≤ 0 → lc x z ≤ 0) (a b d : PScene)
    (h1 : cmpByIndexName lc a b ≤ 0) (h2 : cmpByIndexName lc b d ≤ 0) :
    cmpByIndexName lc a d ≤ 0 := by
  unfold cmpByIndexName at h1 h2 ⊢
  by_cases hab : a.index = b.index <;> by_cases hbd : b.index = d.index
  · rw [if_pos hab] at h1
    rw [if_pos hbd] at h2
    rw [if_pos (hab.trans hbd)]
    exact hlc _ _ _ h1 h2
  · rw [if_neg hbd] at h2
    have had : ¬ a.index = d.index := by omega
    rw [if_neg had]
    omega
  · rw [if_neg hab] at h1
    have had : ¬ a.index = d.index := by omega
    rw [if_neg had]
    omega
  · rw [if_neg hab] at h1
    rw [if_neg hbd] at h2
    have had : ¬ a.index = d.index := by omega
    rw [if_neg had]
    omega

theorem insertStable_split (c : α → α → Int) (x : α) (l : List α) :
    ∃ l₁ l₂, l = l₁ ++ l₂ ∧ insertStable c x l = l₁ ++ x :: l₂ ∧
      (∀ y ∈ l₁, c y x ≤ 0) ∧ (∀ y, l₂.head? = some y → ¬ c y x ≤ 0) := by
  induction l with
  | nil =>
    exact ⟨[], [], rfl, rfl, by simp, by simp⟩
  | cons y ys ih =>
    by_cases h : c y x ≤ 0
    · obtain ⟨m₁, m₂, he, hi, h1, h2⟩ := ih
      refine ⟨y :: m₁, m₂, by simp [he], by simp [insertStable, h, hi], ?_, h2⟩
      intro z hz
      rcases List.mem_cons.mp hz with hz | hz
      · exact hz ▸ h
      · exact h1 z hz
    · refine ⟨[], y :: ys, rfl, by simp [insertStable, h], by simp, ?_⟩
      intro z hz
      simp only [List.head?_cons, Option.some.injEq] at hz
      exact hz ▸ h

theorem insertStable_pairwise (c : α → α → Int)
    (Htot : ∀ a b, ¬ c a b ≤ 0 → c b a ≤ 0)
    (Htrans : ∀ a b d, c a b ≤ 0 → c b d ≤ 0 → c a d ≤ 0)
    (x : α) (l : List α) (h : l.Pairwise fun a b => c a b ≤ 0) :
    (insertStable c x l).Pairwise fun a b => c a b ≤ 0 := by
  obtain ⟨l₁, l₂, he, hi, ha, hh⟩ := insertStable_split c x l
  subst he
  rw [hi]
  rw [List.pairwise_append] at h ⊢
  obtain ⟨hp1, hp2, hcross⟩ := h
  refine ⟨hp1, ?_, ?_⟩
  · rw [List.pairwise_cons]
    refine ⟨?_, hp2⟩
    intro b hb
    cases l₂ with
    | nil => cases hb
    | cons y₂ tl =>
      have hxy₂ : c x y₂ ≤ 0 := Htot y₂ x (hh y₂ rfl)
      rcases List.mem_cons.mp hb with hb | hb
      · exact hb ▸ hxy₂
      · exact Htrans x y₂ b hxy₂ ((List.pairwise_cons.mp hp2).1 b hb)
  · intro a hha b hb
    rcases List.mem_cons.mp hb with hb | hb
    · exact hb ▸ ha a hha
    · exact hcross a hha b hb

theorem insertStable_filter_tied (c : α → α → Int)
    (Htrans : ∀ a b d, c a b ≤ 0 → c b d ≤ 0 → c a d ≤ 0)
    (x₀ x : α) (l : List α) (h : l.Pairwise fun a b => c a b ≤ 0) :
    (insertStable c x l).filter (tiedWith c x₀) =
      l.filter (tiedWith c x₀) ++ (if tiedWith c x₀ x then [x] else []) := by
  obtain ⟨l₁, l₂, he, hi, ha, hh⟩ := insertStable_split c x l
  subst he
  have hp2 : l₂.Pairwise fun a b => c a b ≤ 0 := (List.pairwise_append.mp h).2.1
  rw [hi, List.filter_append, List.filter_append, List.filter_cons]
  by_cases hx : tiedWith c x₀ x
  · have hx' : c x x₀ ≤ 0 ∧ c x₀ x ≤ 0 := by
      simpa [tiedWith] using hx
    have h2 : l₂.filter (tiedWith c x₀) = [] := by
      rw [List.filter_eq_nil_iff]
      intro z hz htz
      have htz' : c z x₀ ≤ 0 ∧ c x₀ z ≤ 0 := by
        simpa [tiedWith] using htz
      have hzx : c z x ≤ 0 := Htrans z x₀ x htz'.1 hx'.2
      cases l₂ with
      | nil => cases hz
      | cons y₂ tl =>
        have hy₂ : ¬ c y₂ x ≤ 0 := hh y₂ rfl
        rcases List.mem_cons.mp hz with hz | hz
        · exact hy₂ (hz ▸ hzx)
        · exact hy₂ (Htrans y₂ z x ((List.pairwise_cons.mp hp2).1 z hz) hzx)
    rw [h2]
    simp [hx]
  · rw [if_neg hx, if_neg hx]
    simp

theorem stableSort_aux_pairwise (c : α → α → Int)
    (Htot : ∀ a b, ¬ c a b ≤ 0 → c b a ≤ 0)
    (Htrans : ∀ a b d, c a b ≤ 0 → c b d ≤ 0 → c a d ≤ 0)
    (l : List α) : ∀ acc : List α, (acc.Pairwise fun a b => c a b ≤ 0) →
    ((l.foldl (fun a x => insertStable c x a) acc).Pairwise fun a b => c a b ≤ 0) := by
  induction l with
  | nil => intro acc h; simpa using h
  | cons x xs ih =>
    intro acc h
    simp only [List.foldl_cons]
    exact ih _ (insertStable_pairwise c Htot Htrans x acc h)

theorem stableSort_pairwise (c : α → α → Int)
    (Htot : ∀ a b, ¬ c a b ≤ 0 → c b a ≤ 0)
    (Htrans : ∀ a b d, c a b ≤ 0 → c b d ≤ 0 → c a d ≤ 0)
    (l : List α) : (stableSort c l).Pairwise fun a b => c a b ≤ 0 :=
  stableSort_aux_pairwise c Htot Htrans l [] (by simp)

theorem stableSort_aux_filter (c : α → α → Int)
    (Htot : ∀ a b, ¬ c a b ≤ 0 → c b a ≤ 0)
    (Htrans : ∀ a b d, c a b ≤ 0 → c b d ≤ 0 → c a d ≤ 0)
    (x₀ : α) (l : List α) : ∀ acc : List α, (acc.Pairwise fun a b => c a b ≤ 0) →
    (l.foldl (fun a x => insertStable c x a) acc).filter (tiedWith c x₀) =
      acc.filter (tiedWith c x₀) ++ l.filter (tiedWith c x₀) := by
  induction l with
  | nil => intro acc _; simp
  | cons x xs ih =>
    intro acc h
    simp only [List.foldl_cons]
    rw [ih _ (insertStable_pairwise c Htot Htrans x acc h),
        insertStable_filter_tied c Htrans x₀ x acc h, List.filter_cons]
    by_cases hx : tiedWith c x₀ x
    · simp [hx]
    · simp [hx]

theorem stableSort_filter_stable (c : α → α → Int)
    (Htot : ∀ a b, ¬ c a b ≤ 0 → c b a ≤ 0)
    (Htrans : ∀ a b d, c a b ≤ 0 → c b d ≤ 0 → c a d ≤ 0)
    (x₀ : α) (l : List α) :
    (stableSort c l).filter (tiedWith c x₀) = l.filter (tiedWith c x₀) := by
  have := stableSort_aux_filter c Htot Htrans x₀ l [] (by simp)
  simpa [stableSort] using this

theorem sceneRecs_map_id (items : Items) :
    (sceneRecs items).map SceneRec.id = sceneKeys items := by
  induction items with
  | nil => rfl
  | cons p ps ih =>
    simp only [sceneRecs, sceneKeys, List.filterMap_cons, List.filter_cons] at *
    by_cases h : p.2.type = "scene"
    · simp [h, ih]
    · simp [h, ih]

theorem presetSceneRecs_map_id (items : Items) :
    (presetSceneRecs items).map PScene.id = sceneKeys items := by
  induction items with
  | nil => rfl
  | cons p ps ih =>
    simp only [presetSceneRecs, sceneKeys, List.filterMap_cons, List.filter_cons] at *
    by_cases h : p.2.type = "scene"
    · simp [h, ih]
    · simp [h, ih]

theorem firstPresent_singleton (aliases : List String) (a : String) (h : a ∈ aliases) :
    firstPresent aliases [a] = some a := by
  induction aliases with
  | nil => cases h
  | cons b bs ih =>
    by_cases hb : b = a
    · subst hb
      simp [firstPresent]
    · have hmem : a ∈ bs := by
        rcases List.mem_cons.mp h with h | h
        · exact absurd h (fun hh => hb (by simp [hh]))
        · exact h
      have hc : ([a].contains b) = false := by
        simp only [List.contains_cons, List.contains_nil, Bool.or_false, beq_iff_eq,
          beq_eq_false_iff_ne, ne_eq]
        exact fun h => hb (by simp [h])
      simp only [firstPresent, List.find?_cons, hc] at *
      exact ih hmem

/-- C6: descriptor regeneration is a pure function of the mirror fields and
is idempotent — regenerating with the session items and the streaming and
recording flags unchanged rewrites the variable values and the action,
feedback and preset descriptor sets to exactly the same content. -/
theorem C6_regenerate_idempotent (lc : String → String → Int) (i : Inst) :
    regenerate lc (regenerate lc i) = regenerate lc i := rfl

/-- C7: dispatching any command while the proxy handle is null produces no
invocation, frame send, or queueing, throws nothing, logs exactly one entry
and leaves the state unchanged, so the command is dropped rather than
queued for replay. -/
theorem C7_drop_when_not_ready (i : Inst) (name : String) (args : List String)
    (h : i.meld = none) :
    mCall i name args = (i, [Effect.log "warn" "Meld not ready"]) ∧
    sendLikeCount (mCall i name args).2 = 0 ∧
    logCount (mCall i name args).2 = 1 ∧
    (mCall i name args).1 = i := by
  simp [mCall, h, sendLikeCount, logCount]

theorem C7_drop_when_not_ready_witness :
    mCall inst0 "showScene" ["A"] = (inst0, [Effect.log "warn" "Meld not ready"]) ∧
    sendLikeCount (mCall inst0 "showScene" ["A"]).2 = 0 ∧
    logCount (mCall inst0 "showScene" ["A"]).2 = 1 ∧
    (mCall inst0 "showScene" ["A"]).1 = inst0 :=
  C7_drop_when_not_ready inst0 "showScene" ["A"] rfl

/-- C2 counterexample: the close handler of a connected instance schedules
zero reconnect attempts, not exactly one as claimed — the module contains
no reconnect timer at all. -/
theorem C2_counterexample :
    reconnectCount (onCloseHandler inst1).2 = 0 ∧
    reconnectCount (onCloseHandler inst1).2 ≠ 1 := by
  decide

/-- C2 amended: when the transport close event fires the client sets status
Disconnected, clears the proxy and transport handles and logs exactly one
warning, scheduling no reconnect attempt; a socket error sets status Error
with the message and logs one error line; neither path throws or
terminates the process, and reconnection happens only through an explicit
reconfiguration. -/
theorem C2_close_behavior (i : Inst) (errMsg : String) :
    onCloseHandler i =
      ({ i with status := .Disconnected, meld := none, transportPresent := false },
       [.updateStatus .Disconnected none, .log "warn" "WebSocket closed"]) ∧
    reconnectCount (onCloseHandler i).2 = 0 ∧
    logCount (onCloseHandler i).2 = 1 ∧
    onErrorHandler i errMsg =
      ({ i with status := .Error },
       [.updateStatus .Error (some errMsg), .log "error" ("WebSocket error: " ++ errMsg)]) ∧
    reconnectCount (onErrorHandler i errMsg).2 = 0 := by
  refine ⟨rfl, ?_, ?_, rfl, ?_⟩ <;>
    simp [onCloseHandler, onErrorHandler, reconnectCount, logCount]

/-- C3 counterexample: no alias list for the showScene command containing
any name other than the literal one is consistent with the dispatcher,
because the dispatcher invokes only the literal command name — there is no
first-present-wins fallback over multiple remote method names. -/
theorem C3_counterexample :
    ¬ ∃ aliases : List String,
        (∃ a, a ∈ aliases ∧ a ≠ "showScene") ∧
        ∀ m : MeldObj, ∀ i : Inst, i.meld = some m →
          (mCall i "showScene" []).2 =
            (match firstPresent aliases m.methods with
             | some a => [Effect.invoke a []]
             | none => [Effect.log "error" "Unknown Meld function: showScene"]) := by
  rintro ⟨aliases, ⟨a, ha, hne⟩, hdisp⟩
  have h1 := hdisp ⟨[a], false, false, []⟩ { inst0 with meld := some ⟨[a], false, false, []⟩ } rfl
  rw [firstPresent_singleton aliases a ha] at h1
  have hne' : ¬ (("showScene" : String) = a) := fun hh => hne hh.symm
  simp [mCall, hne'] at h1

/-- C3 amended: the dispatcher tries exactly one remote method name per
command, the literal command name: it invokes it when present on the proxy
and otherwise logs an unknown-function error and drops the command, and
every invocation it ever emits carries the literal command name — so a
command succeeds only under that exact remote name. -/
theorem C3_single_name (i : Inst) (m : MeldObj) (name : String) (args : List String)
    (h : i.meld = some m) :
    (name ∈ m.methods → mCall i name args = (i, [Effect.invoke name args])) ∧
    (name ∉ m.methods →
      mCall i name args = (i, [Effect.log "error" ("Unknown Meld function: " ++ name)])) ∧
    (∀ e ∈ (mCall i name args).2, ∀ n as, e = Effect.invoke n as → n = name) := by
  refine ⟨fun hm => by simp [mCall, h, hm], fun hm => by simp [mCall, h, hm], ?_⟩
  intro e he n as heq
  by_cases hm : name ∈ m.methods
  · simp [mCall, h, hm] at he
    rw [he] at heq
    injection heq with h1 h2
    exact h1.symm
  · simp [mCall, h, hm] at he
    rw [he] at heq
    simp at heq

theorem C3_single_name_witness :
    mCall inst1 "showScene" ["A"] = (inst1, [Effect.invoke "showScene" ["A"]]) :=
  (C3_single_name inst1 meld1 "showScene" ["A"] rfl).1 (by decide)

/-- C8: with the proxy connected and recording off, invoking the
toggle-recording command emits exactly the toggleRecord invocation, and the
subsequent isRecordingChanged signal with the proxy property now true
yields a state whose recordingOn feedback evaluates true and whose
is_recording variable equals "ON". -/
theorem C8_record_roundtrip (i : Inst) (m : MeldObj)
    (h1 : i.meld = some m) (_h2 : i.isRecording = false)
    (h3 : "toggleRecord" ∈ m.methods) :
    (mCall i "toggleRecord" []).2 = [Effect.invoke "toggleRecord" []] ∧
    ∃ i3,
      isRecordingChangedHandler
          { (mCall i "toggleRecord" []).1 with meld := some { m with isRecording := true } } =
        some i3 ∧
      recordingOn i3 = true ∧ i3.vars.is_recording = "ON" := by
  have hm : mCall i "toggleRecord" [] = (i, [Effect.invoke "toggleRecord" []]) := by
    simp [mCall, h1, h3]
  rw [hm]
  exact ⟨rfl, _, rfl, rfl, rfl⟩

theorem C8_record_roundtrip_witness :
    (mCall inst1 "toggleRecord" []).2 = [Effect.invoke "toggleRecord" []] ∧
    ∃ i3,
      isRecordingChangedHandler
          { (mCall inst1 "toggleRecord" []).1 with
            meld := some { meld1 with isRecording := true } } =
        some i3 ∧
      recordingOn i3 = true ∧ i3.vars.is_recording = "ON" :=
  C8_record_roundtrip inst1 meld1 rfl rfl (by decide)

theorem getCurrentSceneId_eq_empty (items : Items)
    (h : ∀ p ∈ items, p.2.type = "scene" → p.2.current = false) :
    getCurrentSceneId items = "" := by
  unfold getCurrentSceneId
  have hfind : items.find? (fun p => p.2.type == "scene" && p.2.current) = none := by
    apply List.find?_eq_none.mpr
    intro p hp
    by_cases ht : p.2.type = "scene"
    · simp [ht, h p hp ht]
    · simp [ht]
  rw [hfind]

/-- C9: when a session update leaves no scene entry marked current — as
when the current-scene reference cites an id absent from the scene set —
the handler still yields a state (it is total, no crash), the current
scene id is the empty string, and the sceneIsLive feedback evaluates
false for every scene id. -/
theorem C9_stale_scene_safe (lc : String → String → Int) (i : Inst) (m : MeldObj)
    (h1 : i.meld = some m)
    (h2 : ∀ p ∈ m.sessionItems, p.2.type = "scene" → p.2.current = false) :
    getCurrentSceneId (sessionChangedHandler lc i).sessionItems = "" ∧
    ∀ targetId, sceneIsLiveCallback (sessionChangedHandler lc i).sessionItems targetId = false := by
  have hitems : (sessionChangedHandler lc i).sessionItems = m.sessionItems := by
    simp [sessionChangedHandler, regenerate, h1]
  rw [hitems]
  have hid := getCurrentSceneId_eq_empty m.sessionItems h2
  refine ⟨hid, fun targetId => ?_⟩
  simp [sceneIsLiveCallback, hid]

theorem C9_stale_scene_safe_witness :
    getCurrentSceneId (sessionChangedHandler jsLocaleCompare inst9).sessionItems = "" ∧
    sceneIsLiveCallback (sessionChangedHandler jsLocaleCompare inst9).sessionItems "A" = false :=
  ⟨(C9_stale_scene_safe jsLocaleCompare inst9 meld9 rfl (by decide)).1,
   (C9_stale_scene_safe jsLocaleCompare inst9 meld9 rfl (by decide)).2 "A"⟩

/-- C10: the variable writers always assign all three variables in one
record: initialisation writes an empty scene name with "OFF"/"OFF", every
update writes is_streaming and is_recording as exactly "ON" or "OFF", and
current_scene_name is the empty string whenever no scene entry is marked
current (session item keys being non-empty remote identifiers). -/
theorem C10_variable_invariants (items : Items) (isS isR : Bool) :
    initVariablesValues = ⟨"", "OFF", "OFF"⟩ ∧
    ((updateVariablesValues items isS isR).is_streaming = "ON" ∨
      (updateVariablesValues items isS isR).is_streaming = "OFF") ∧
    ((updateVariablesValues items isS isR).is_recording = "ON" ∨
      (updateVariablesValues items isS isR).is_recording = "OFF") ∧
    ((∀ p ∈ items, p.2.type = "scene" → p.2.current = false) →
      (∀ p ∈ items, ¬ p.1 = "") →
      (updateVariablesValues items isS isR).current_scene_name = "") := by
  refine ⟨rfl, ?_, ?_, ?_⟩
  · cases isS <;> simp [updateVariablesValues]
  · cases isR <;> simp [updateVariablesValues]
  · intro hcur hkeys
    have hid := getCurrentSceneId_eq_empty items hcur
    have hfind2 : items.find? (fun p => p.1 == "") = none := by
      apply List.find?_eq_none.mpr
      intro p hp
      simpa using hkeys p hp
    have hname : getCurrentSceneName items = "" := by
      unfold getCurrentSceneName
      rw [hid]
      unfold getSceneNameById
      rw [hfind2]
    simp [updateVariablesValues, hname]

theorem C10_variable_invariants_witness :
    ((updateVariablesValues cItemsC1 true false).is_streaming = "ON" ∨
      (updateVariablesValues cItemsC1 true false).is_streaming = "OFF") ∧
    (updateVariablesValues cItemsC1 true false).current_scene_name = "" :=
  ⟨(C10_variable_invariants cItemsC1 true false).2.1,
   (C10_variable_invariants cItemsC1 true false).2.2.2 (by decide) (by decide)⟩

/-- C1 counterexample: for the spec scenario scenes the generated dropdown
labels are the raw names with an appended parenthetical id prefix —
"Intro (abc12345) (A)" and "Outro (B)" — not the stripped "Intro" and
"Outro" the claim asserts, and the per-scene preset names keep the raw
label unstripped. -/
theorem C1_counterexample :
    (getSceneChoices jsLocaleCompare cItemsC1).map Choice.label =
      ["Intro (abc12345) (A)", "Outro (B)"] ∧
    ¬ (getSceneChoices jsLocaleCompare cItemsC1).map Choice.label = ["Intro", "Outro"] ∧
    (initPresets jsLocaleCompare cItemsC1).map Preset.name =
      ["Scene: Intro (abc12345)", "Scene: Outro", "Toggle Recording", "Toggle Streaming"] :=
  ⟨by decide, by decide, by decide⟩

/-- C1 amended: the display label of every generated dropdown choice is the
raw scene label with an appended parenthetical holding the first eight
characters of the id (the raw id when the label is empty), no suffix is
ever stripped, each per-scene preset keeps the raw label, and in both the
raw id is preserved for lookups. -/
theorem C1_display_names (lc : String → String → Int) (items : Items) :
    (∀ ch ∈ getSceneChoices lc items, ∃ obj : SItem, (ch.id, obj) ∈ items ∧
      obj.type = "scene" ∧
      ch.label = (if obj.name = "" then ch.id else obj.name ++ " (" ++ ch.id.take 8 ++ ")")) ∧
    (∀ sc ∈ presetScenes lc items, ∃ obj : SItem, (sc.id, obj) ∈ items ∧
      obj.type = "scene" ∧
      sc.name = (if obj.name = "" then sc.id else obj.name) ∧
      (scenePreset sc).name = "Scene: " ++ sc.name ∧
      (scenePreset sc).actionSceneId = some sc.id) := by
  constructor
  · intro ch hch
    obtain ⟨r, hr, hproj⟩ := List.mem_map.mp hch
    have hr' : r ∈ sceneRecs items := (stableSort_perm _ _).mem_iff.mp hr
    obtain ⟨p, hp, hsome⟩ := List.mem_filterMap.mp hr'
    by_cases ht : p.2.type = "scene"
    · rw [if_pos ht] at hsome
      injection hsome with hsome
      subst hsome
      subst hproj
      exact ⟨p.2, hp, ht, rfl⟩
    · rw [if_neg ht] at hsome
      cases hsome
  · intro sc hsc
    have hr' : sc ∈ presetSceneRecs items := (stableSort_perm _ _).mem_iff.mp hsc
    obtain ⟨p, hp, hsome⟩ := List.mem_filterMap.mp hr'
    by_cases ht : p.2.type = "scene"
    · rw [if_pos ht] at hsome
      injection hsome with hsome
      subst hsome
      exact ⟨p.2, hp, ht, rfl, rfl, rfl⟩
    · rw [if_neg ht] at hsome
      cases hsome

theorem C1_display_names_witness :
    ∃ obj : SItem, (("A" : String), obj) ∈ cItemsC1 ∧ obj.type = "scene" ∧
      ("Intro (abc12345) (A)" : String) =
        (if obj.name = "" then "A" else obj.name ++ " (" ++ ("A" : String).take 8 ++ ")") :=
  (C1_display_names jsLocaleCompare cItemsC1).1 ⟨"A", "Intro (abc12345) (A)"⟩ (by decide)

theorem sceneKeys_nodup (items : Items) (h : (items.map Prod.fst).Nodup) :
    (sceneKeys items).Nodup :=
  List.Nodup.sublist (List.Sublist.map Prod.fst (List.filter_sublist items)) h

theorem getSceneChoices_ids_perm (lc : String → String → Int) (items : Items) :
    ((getSceneChoices lc items).map Choice.id).Perm (sceneKeys items) := by
  unfold getSceneChoices
  rw [List.map_map]
  have heq : (Choice.id ∘ fun r : SceneRec => (⟨r.id, r.label⟩ : Choice)) = SceneRec.id := rfl
  rw [heq, ← sceneRecs_map_id items]
  exact (stableSort_perm _ _).map _

theorem presetScenes_ids_perm (lc : String → String → Int) (items : Items) :
    ((presetScenes lc items).map PScene.id).Perm (sceneKeys items) := by
  rw [← presetSceneRecs_map_id items]
  exact (stableSort_perm _ _).map _

/-- C4 counterexample: with two known scenes, descriptor generation emits
exactly one switch-to-scene action definition — a single showScene action
carrying a dropdown — not one action per scene as claimed. -/
theorem C4_counterexample :
    (initActions jsLocaleCompare cItemsC1).countP (fun a => a.actionId == "showScene") = 1 ∧
    (sceneKeys cItemsC1).length = 2 ∧
    ¬ (initActions jsLocaleCompare cItemsC1).countP (fun a => a.actionId == "showScene") =
        (sceneKeys cItemsC1).length :=
  ⟨by decide, by decide, by decide⟩

/-- C4 amended: generation emits a single switch-to-scene action whose
dropdown holds exactly one choice per known scene id, exactly one scene
preset per known scene id, and exactly two static utility presets (toggle
recording, toggle streaming); duplicate display names with distinct ids
still yield exactly one choice and one preset per id. -/
theorem C4_descriptor_counts (lc : String → String → Int) (items : Items)
    (h : (items.map Prod.fst).Nodup) :
    (initActions lc items).countP (fun a => a.actionId == "showScene") = 1 ∧
    (∀ k ∈ sceneKeys items, ((getSceneChoices lc items).map Choice.id).count k = 1) ∧
    (∀ k ∈ sceneKeys items, ((presetScenes lc items).map PScene.id).count k = 1) ∧
    (initPresets lc items).length = (sceneKeys items).length + 2 ∧
    (initPresets lc items).countP (fun p => p.category == "Meld Studio / Utility") = 2 := by
  have hnd := sceneKeys_nodup items h
  refine ⟨rfl, ?_, ?_, ?_, ?_⟩
  · intro k hk
    rw [(getSceneChoices_ids_perm lc items).count_eq]
    exact List.count_eq_one_of_mem hnd hk
  · intro k hk
    rw [(presetScenes_ids_perm lc items).count_eq]
    exact List.count_eq_one_of_mem hnd hk
  · have h1 : (presetScenes lc items).length = (presetSceneRecs items).length :=
      (stableSort_perm _ _).length_eq
    have h2 : (presetSceneRecs items).length = (sceneKeys items).length := by
      rw [← presetSceneRecs_map_id items, List.length_map]
    simp [initPresets, h1, h2]
  · unfold initPresets
    rw [List.countP_append]
    have h0 : ((presetScenes lc items).map scenePreset).countP
        (fun p => p.category == "Meld Studio / Utility") = 0 := by
      apply List.countP_eq_zero.mpr
      intro x hx
      obtain ⟨sc, _, hx⟩ := List.mem_map.mp hx
      subst hx
      simp [scenePreset]
    rw [h0]
    decide

theorem C4_descriptor_counts_witness :
    ((getSceneChoices jsLocaleCompare cItemsC1).map Choice.id).count "A" = 1 ∧
    ((presetScenes jsLocaleCompare cItemsC1).map PScene.id).count "A" = 1 ∧
    (initPresets jsLocaleCompare cItemsC1).length = (sceneKeys cItemsC1).length + 2 :=
  ⟨(C4_descriptor_counts jsLocaleCompare cItemsC1 (by decide)).2.1 "A" (by decide),
   (C4_descriptor_counts jsLocaleCompare cItemsC1 (by decide)).2.2.1 "A" (by decide),
   (C4_descriptor_counts jsLocaleCompare cItemsC1 (by decide)).2.2.2.1⟩

/-- C5 counterexample: two scenes with equal order and identical display
names but distinct ids — the generated preset scene list keeps discovery
order (b before a), violating the claimed (order, name, id) sort, and
reversing the discovery order changes the output, so the result is not
independent of discovery order. -/
theorem C5_counterexample :
    (presetScenes jsLocaleCompare cItemsC5).map PScene.id = ["b", "a"] ∧
    ¬ List.Chain' lexOrderNameId (presetScenes jsLocaleCompare cItemsC5) ∧
    (presetScenes jsLocaleCompare cItemsC5.reverse).map PScene.id = ["a", "b"] := by
  refine ⟨by decide, ?_, by decide⟩
  have h : presetScenes jsLocaleCompare cItemsC5 = [⟨"b", "X", 0⟩, ⟨"a", "X", 0⟩] := by decide
  rw [h]
  simp only [List.chain'_cons, List.chain'_singleton, and_true]
  decide

/-- C5 amended: every generated scene list is a permutation of the filtered
scene records with nondecreasing order values; when the locale comparison
is a consistent comparator — total and transitive, as
String.prototype.localeCompare is, and as the concrete model
jsLocaleCompare is proved to be above — each list is pairwise sorted by the
source comparator (order ascending, then the locale comparison of the
choice label or preset name within equal order) and the entries of every
comparator tie class keep their discovery order (filtering the output to a
tie class yields exactly the input filtered to that class); entries tying
across the whole list are returned verbatim, and there is no id
tiebreak. -/
theorem C5_sort_order (lc : String → String → Int) (items : Items) :
    (getSceneChoicesSorted lc items).Perm (sceneRecs items) ∧
    List.Chain' (fun a b => a.index ≤ b.index) (getSceneChoicesSorted lc items) ∧
    (presetScenes lc items).Perm (presetSceneRecs items) ∧
    List.Chain' (fun a b => a.index ≤ b.index) (presetScenes lc items) ∧
    ((∀ a ∈ presetSceneRecs items, ∀ b ∈ presetSceneRecs items, cmpByIndexName lc a b = 0) →
      presetScenes lc items = presetSceneRecs items) ∧
    ((∀ a ∈ sceneRecs items, ∀ b ∈ sceneRecs items, cmpByIndexLabel lc a b = 0) →
      getSceneChoicesSorted lc items = sceneRecs items) ∧
    ((∀ x y, ¬ lc x y ≤ 0 → lc y x ≤ 0) →
      (∀ x y z, lc x y ≤ 0 → lc y z ≤ 0 → lc x z ≤ 0) →
      ((getSceneChoicesSorted lc items).Pairwise fun a b => cmpByIndexLabel lc a b ≤ 0) ∧
      ((presetScenes lc items).Pairwise fun a b => cmpByIndexName lc a b ≤ 0) ∧
      (∀ x₀, (getSceneChoicesSorted lc items).filter (tiedWith (cmpByIndexLabel lc) x₀) =
        (sceneRecs items).filter (tiedWith (cmpByIndexLabel lc) x₀)) ∧
      (∀ x₀, (presetScenes lc items).filter (tiedWith (cmpByIndexName lc) x₀) =
        (presetSceneRecs items).filter (tiedWith (cmpByIndexName lc) x₀))) :=
  ⟨stableSort_perm _ _,
   stableSort_chain SceneRec.index (cmpByIndexLabel lc)
     (cmpByIndexLabel_le lc) (cmpByIndexLabel_gt lc) (sceneRecs items),
   stableSort_perm _ _,
   stableSort_chain PScene.index (cmpByIndexName lc)
     (cmpByIndexName_le lc) (cmpByIndexName_gt lc) (presetSceneRecs items),
   fun h => stableSort_id _ _ h,
   fun h => stableSort_id _ _ h,
   fun htot htrans =>
     ⟨stableSort_pairwise _ (cmpByIndexLabel_total lc htot) (cmpByIndexLabel_trans lc htrans) _,
      stableSort_pairwise _ (cmpByIndexName_total lc htot) (cmpByIndexName_trans lc htrans) _,
      fun x₀ => stableSort_filter_stable _ (cmpByIndexLabel_total lc htot)
        (cmpByIndexLabel_trans lc htrans) x₀ _,
      fun x₀ => stableSort_filter_stable _ (cmpByIndexName_total lc htot)
        (cmpByIndexName_trans lc htrans) x₀ _⟩⟩

theorem C5_sort_order_witness :
    (presetScenes jsLocaleCompare cItemsC5).Perm (presetSceneRecs cItemsC5) ∧
    presetScenes jsLocaleCompare cItemsC5 = presetSceneRecs cItemsC5 ∧
    ((presetScenes jsLocaleCompare cItemsC5).Pairwise
      fun a b => cmpByIndexName jsLocaleCompare a b ≤ 0) ∧
    (presetScenes jsLocaleCompare cItemsC5).filter
        (tiedWith (cmpByIndexName jsLocaleCompare) ⟨"b", "X", 0⟩) =
      (presetSceneRecs cItemsC5).filter
        (tiedWith (cmpByIndexName jsLocaleCompare) ⟨"b", "X", 0⟩) :=
  ⟨(C5_sort_order jsLocaleCompare cItemsC5).2.2.1,
   (C5_sort_order jsLocaleCompare cItemsC5).2.2.2.2.1 (by decide),
   ((C5_sort_order jsLocaleCompare cItemsC5).2.2.2.2.2.2
     jsLocaleCompare_total jsLocaleCompare_trans).2.1,
   ((C5_sort_order jsLocaleCompare cItemsC5).2.2.2.2.2.2
     jsLocaleCompare_total jsLocaleCompare_trans).2.2.2 ⟨"b", "X", 0⟩⟩
